import Mathlib

/-!
# Verification of the hypervehicle geometry core

Shallow embedding of `hypervehicle/utilities.py` and
`hypervehicle/components/component.py`, together with theorems settling the
specification claims about the tessellator, the sensitivity engine, the
mass/inertia aggregator, the reflect operation and the point reattachment.

Scalars are modelled two ways:
* `ℚ` for exact-arithmetic claims;
* `PyFloat` (rationals extended with `inf`, `-inf`, `nan`) for claims about
  numpy's IEEE-754-style division-by-zero behaviour, where the special values
  matter but rounding does not.
-/

/-- A 3-component vector, mirroring the `(x, y, z)` triples / length-3 numpy
arrays used throughout the source. -/
structure V3 (α : Type) where
  x : α
  y : α
  z : α
deriving DecidableEq, Repr

/-- Componentwise vector addition (numpy `+` on shape-(3,) arrays). -/
def vadd {α} [Add α] (a b : V3 α) : V3 α := ⟨a.x + b.x, a.y + b.y, a.z + b.z⟩

/-- Componentwise vector subtraction (numpy `-` on shape-(3,) arrays). -/
def vsub {α} [Sub α] (a b : V3 α) : V3 α := ⟨a.x - b.x, a.y - b.y, a.z - b.z⟩

/-- Componentwise vector multiplication (numpy `*` on shape-(3,) arrays,
used for `r**2 = r*r`). -/
def vmul {α} [Mul α] (a b : V3 α) : V3 α := ⟨a.x * b.x, a.y * b.y, a.z * b.z⟩

/-- Scalar times vector (numpy `m * cgs[component]`). -/
def smulv {α} [Mul α] (c : α) (v : V3 α) : V3 α := ⟨c * v.x, c * v.y, c * v.z⟩

/-- Vector times scalar (numpy `composite_cog * (1/total_mass)`; the operand
order of the source line `composite_cog *= 1 / total_mass`). -/
def vmuls {α} [Mul α] (v : V3 α) (c : α) : V3 α := ⟨v.x * c, v.y * c, v.z * c⟩

/-- The zero vector. -/
def v3zero {α} [Zero α] : V3 α := ⟨0, 0, 0⟩

/-- A 3×3 matrix as three rows, mirroring the shape-(3,3) numpy inertia
matrices returned by `get_mass_properties_with_density`. -/
abbrev M3 (α : Type) : Type := V3 (V3 α)

/-- Matrix addition, rowwise (numpy `+` on shape-(3,3) arrays). -/
def madd {α} [Add α] (a b : M3 α) : M3 α := ⟨vadd a.x b.x, vadd a.y b.y, vadd a.z b.z⟩

/-- numpy broadcasting of a shape-(3,) array onto a shape-(3,3) array:
the vector is added to every row (`inertias[component] + m * r**2`). -/
def mbroadcast {α} [Add α] (a : M3 α) (v : V3 α) : M3 α :=
  ⟨vadd a.x v, vadd a.y v, vadd a.z v⟩

/-- The zero matrix. -/
def m3zero {α} [Zero α] : M3 α := (⟨v3zero, v3zero, v3zero⟩ : V3 (V3 α))

/-! ## An IEEE-754-style scalar type

`PyFloat` is exact rational arithmetic extended with `inf`, `ninf` and `nan`,
following numpy float64 semantics for the special values (division by zero
yields a signed infinity or `nan`, `0 * inf = nan`, ...). It models the numpy
scalars flowing through the aggregator and the sensitivity engine in exactly
the cases the claims are about: no rounding occurs, but division by zero does.
-/

inductive PyFloat : Type
  | fin : ℚ → PyFloat
  | inf : PyFloat
  | ninf : PyFloat
  | nan : PyFloat
deriving DecidableEq, Repr

namespace PyFloat

/-- numpy float64 addition on the extended values. -/
def pyadd : PyFloat → PyFloat → PyFloat
  | nan, _ => nan
  | _, nan => nan
  | fin a, fin b => fin (a + b)
  | fin _, inf => inf
  | inf, fin _ => inf
  | fin _, ninf => ninf
  | ninf, fin _ => ninf
  | inf, inf => inf
  | ninf, ninf => ninf
  | inf, ninf => nan
  | ninf, inf => nan

/-- numpy float64 subtraction on the extended values. -/
def pysub : PyFloat → PyFloat → PyFloat
  | nan, _ => nan
  | _, nan => nan
  | fin a, fin b => fin (a - b)
  | fin _, inf => ninf
  | inf, fin _ => inf
  | fin _, ninf => inf
  | ninf, fin _ => ninf
  | inf, inf => nan
  | ninf, ninf => nan
  | inf, ninf => inf
  | ninf, inf => ninf

/-- numpy float64 multiplication on the extended values
(`0 * ±inf = nan`). -/
def pymul : PyFloat → PyFloat → PyFloat
  | nan, _ => nan
  | _, nan => nan
  | fin a, fin b => fin (a * b)
  | fin a, inf => if 0 < a then inf else if a < 0 then ninf else nan
  | inf, fin a => if 0 < a then inf else if a < 0 then ninf else nan
  | fin a, ninf => if 0 < a then ninf else if a < 0 then inf else nan
  | ninf, fin a => if 0 < a then ninf else if a < 0 then inf else nan
  | inf, inf => inf
  | ninf, ninf => inf
  | inf, ninf => ninf
  | ninf, inf => ninf

/-- numpy float64 division on the extended values: division of a nonzero
finite value by (positive) zero yields a signed infinity with a warning but
no exception, `0/0 = nan`. -/
def pydiv : PyFloat → PyFloat → PyFloat
  | nan, _ => nan
  | _, nan => nan
  | fin a, fin b =>
      if b = 0 then (if 0 < a then inf else if a < 0 then ninf else nan)
      else fin (a / b)
  | fin _, inf => fin 0
  | fin _, ninf => fin 0
  | inf, fin b => if 0 ≤ b then inf else ninf
  | ninf, fin b => if 0 ≤ b then ninf else inf
  | inf, inf => nan
  | ninf, ninf => nan
  | inf, ninf => nan
  | ninf, inf => nan

/-- Finiteness predicate: `true` exactly on the `fin` values (neither an
infinity nor `nan`). -/
def isFinite : PyFloat → Bool
  | fin _ => true
  | _ => false

instance addInst : Add PyFloat := ⟨pyadd⟩
instance subInst : Sub PyFloat := ⟨pysub⟩
instance mulInst : Mul PyFloat := ⟨pymul⟩
instance divInst : Div PyFloat := ⟨pydiv⟩
instance zeroInst : Zero PyFloat := ⟨fin 0⟩
instance oneInst : One PyFloat := ⟨fin 1⟩

end PyFloat

/-! ## Tessellator: `parametricSurfce2stl` (utilities.py lines 11-118)

The parameter grid is `r_list = s_list = np.linspace(0, 1, N + 1)`, the vertex
array has `(N+1)**2 + N**2` slots (corner points first, then one centroid per
quad cell), and each of the `N*N` cells contributes 4 triangles fanning around
the cell's centroid vertex.
-/

/-- `r_list[i] = s_list[i]`: the `i`-th entry of `np.linspace(0.0, 1.0, N+1)`,
namely `i / N` (for `N = 0` the singleton linspace `[0.0]` is matched by
`0 / 0 = 0`). -/
def rparam (N i : ℕ) : ℚ := (i : ℚ) / (N : ℚ)

/-- Index of the corner vertex for grid point `(i, j)`:
`j * (triangles_per_edge + 1) + i` (line 49). -/
def corner_index (N i j : ℕ) : ℕ := j * (N + 1) + i

/-- Index of the centroid vertex of quad cell `(i, j)`:
`index + (j * triangles_per_edge + i)` with `index = (N+1)**2` (lines 40, 79). -/
def centroid_index (N i j : ℕ) : ℕ := (N + 1) ^ 2 + (j * N + i)

/-- Number of slots of the vertex array:
`np.empty(((triangles_per_edge + 1) ** 2 + triangles_per_edge**2, 3))`
(line 43). -/
def num_vertices (N : ℕ) : ℕ := (N + 1) ^ 2 + N ^ 2

/-- The `y_mult` factor: `-1 if mirror_y else 1` (line 39). -/
def y_mult (mirror_y : Bool) : ℚ := if mirror_y then -1 else 1

/-- Corner vertex written at `corner_index N i j`:
`[pos.x, y_mult * pos.y, pos.z]` with `pos = parametric_surface(r_i, s_j)`
(lines 47-51). -/
def corner_vertex (f : ℚ → ℚ → V3 ℚ) (N : ℕ) (mirror_y : Bool) (i j : ℕ) : V3 ℚ :=
  let pos := f (rparam N i) (rparam N j)
  ⟨pos.x, y_mult mirror_y * pos.y, pos.z⟩

/-- Centroid vertex of cell `(i, j)` in the default (bilinear) mode: the
average of the four corner evaluations, with `y_mult` applied to the averaged
`y` (lines 64-85). -/
def centroid_bilinear (f : ℚ → ℚ → V3 ℚ) (N : ℕ) (mirror_y : Bool) (i j : ℕ) : V3 ℚ :=
  let r0 := rparam N i
  let r1 := rparam N (i + 1)
  let s0 := rparam N j
  let s1 := rparam N (j + 1)
  let pos00 := f r0 s0
  let pos10 := f r1 s0
  let pos01 := f r0 s1
  let pos11 := f r1 s1
  let pos_x := (1 / 4 : ℚ) * (pos00.x + pos10.x + pos01.x + pos11.x)
  let pos_y := (1 / 4 : ℚ) * (pos00.y + pos10.y + pos01.y + pos11.y)
  let pos_z := (1 / 4 : ℚ) * (pos00.z + pos10.z + pos01.z + pos11.z)
  ⟨pos_x, y_mult mirror_y * pos_y, pos_z⟩

/-- Centroid vertex of cell `(i, j)` when `re_evaluate_centroid is True`,
exactly as the source computes it (lines 56-62):

    r = 0.5 * (r_list[i] + r_list[i + 1])
    r = 0.5 * (s_list[i] + s_list[i + 1])
    pos = parametric_surface(r, s)

The second statement assigns `r` again (using index `i` into `s_list`), so
`s` keeps the value of the enclosing loop variable, `s_list[j]`. Since
`s_list = r_list`, the surface is evaluated at `(midpoint of [r_i, r_{i+1}],
s_j)` rather than at the cell's interior parameter midpoint. -/
def centroid_reeval (f : ℚ → ℚ → V3 ℚ) (N : ℕ) (mirror_y : Bool) (i j : ℕ) : V3 ℚ :=
  let r := (1 / 2 : ℚ) * (rparam N i + rparam N (i + 1))
  let r := (1 / 2 : ℚ) * (rparam N i + rparam N (i + 1))
  let s := rparam N j
  let pos := f r s
  ⟨pos.x, y_mult mirror_y * pos.y, pos.z⟩

/-- The centroid the specification expects for cell `(i, j)` in exact
re-evaluation mode: the surface evaluated at the cell's interior parameter
midpoint `(r, s) = ((r_i + r_{i+1})/2, (s_j + s_{j+1})/2)`.
Modelled from the spec for comparison with `centroid_reeval`. -/
def centroid_midpoint_spec (f : ℚ → ℚ → V3 ℚ) (N : ℕ) (mirror_y : Bool) (i j : ℕ) : V3 ℚ :=
  let r := (1 / 2 : ℚ) * (rparam N i + rparam N (i + 1))
  let s := (1 / 2 : ℚ) * (rparam N j + rparam N (j + 1))
  let pos := f r s
  ⟨pos.x, y_mult mirror_y * pos.y, pos.z⟩

/-- The value of vertex-array slot `k` after the write loop, in default
(bilinear-centroid) mode: corner slots hold `corner_vertex`, centroid slots
hold `centroid_bilinear` for their cell. -/
def stl_vertex (f : ℚ → ℚ → V3 ℚ) (N : ℕ) (mirror_y : Bool) (k : ℕ) : V3 ℚ :=
  if k < (N + 1) ^ 2 then
    corner_vertex f N mirror_y (k % (N + 1)) (k / (N + 1))
  else
    centroid_bilinear f N mirror_y ((k - (N + 1) ^ 2) % N) ((k - (N + 1) ^ 2) / N)

/-- The four triangles of quad cell `(i, j)` (lines 93-108): vertex-index
triples fanning around the cell's centroid, with the flipped pattern when
`mirror_y or flip_faces`. -/
def cell_faces (N : ℕ) (flip : Bool) (i j : ℕ) : List (ℕ × ℕ × ℕ) :=
  let p00 := j * (N + 1) + i
  let p10 := j * (N + 1) + i + 1
  let p01 := (j + 1) * (N + 1) + i
  let p11 := (j + 1) * (N + 1) + i + 1
  let pzz := (N + 1) ^ 2 + (j * N + i)
  if flip then
    [(p00, pzz, p10), (p10, pzz, p11), (p11, pzz, p01), (p01, pzz, p00)]
  else
    [(p00, p10, pzz), (p10, p11, pzz), (p11, p01, pzz), (p01, p00, pzz)]

/-- The full face list (lines 90-110): the nested loop
`for i in range(N): for j in range(N):` appending the 4 faces of each cell. -/
def faces_list (N : ℕ) (flip : Bool) : List (ℕ × ℕ × ℕ) :=
  (List.range N).flatMap fun i => (List.range N).flatMap fun j => cell_faces N flip i j

/-- The face list as a function of the `mirror_y` and `flip_faces` flags:
the flipped pattern is selected by `if mirror_y or flip_faces` (line 99). -/
def parametric_faces (N : ℕ) (mirror_y flip_faces : Bool) : List (ℕ × ℕ × ℕ) :=
  faces_list N (mirror_y || flip_faces)

/-- One STL triangle as its three 3D vertices (a row of `stl_mesh.vectors`). -/
def Face (α : Type) : Type := V3 α × V3 α × V3 α

/-- The triangle soup of the produced mesh (lines 113-116): each face triple
is looked up in the vertex array, so `stl_mesh.vectors[i][j] =
vertices[faces[i][j]]`. Default (bilinear-centroid) mode. -/
def stl_vectors (f : ℚ → ℚ → V3 ℚ) (N : ℕ) (mirror_y flip_faces : Bool) : List (Face ℚ) :=
  (parametric_faces N mirror_y flip_faces).map fun t =>
    (stl_vertex f N mirror_y t.1, stl_vertex f N mirror_y t.2.1, stl_vertex f N mirror_y t.2.2)

/-! ## Sensitivity engine: `SensitivityStudy.compare_meshes`
(utilities.py lines 322-383)

`mesh.vectors` has shape `(faces, 3, 3)`; the row-major reshape to
`(3*faces, 3)` flattens it into one 3D row per (face, vertex) occurrence, in
face-major order. The DataFrame columns are, in order,
`x, y, z, dx, dy, dz, magnitude, dxdP, dydP, dzdP`; the model stores the
square of the magnitude (`magnitude = sqrt magnitudeSq`), which determines it
and keeps the row type decidable. -/

/-- One row of the sensitivity DataFrame. `magnitudeSq` holds
`dx*dx + dy*dy + dz*dz`; the code's `magnitude` column is its square root. -/
structure SensRow (α : Type) where
  x : α
  y : α
  z : α
  dx : α
  dy : α
  dz : α
  magnitudeSq : α
  dxdP : α
  dydP : α
  dzdP : α
deriving DecidableEq, Repr

/-- Row-major flattening of `mesh.vectors` from shape `(faces, 3, 3)` to
`(3*faces, 3)` (lines 352-356): one vertex-position row per (face, vertex). -/
def flatten_vectors {α} (m : List (Face α)) : List (V3 α) :=
  m.flatMap fun f => [f.1, f.2.1, f.2.2]

/-- Builds one DataFrame row from a reference position `v`, a displacement
`d` and the perturbation step `dP` (lines 359-374): the deltas, the squared
magnitude `dx**2 + dy**2 + dz**2` and the sensitivities `d* / dP`. -/
def mkSensRow {α} [Add α] [Mul α] [Div α] (dP : α) (v d : V3 α) : SensRow α :=
  { x := v.x, y := v.y, z := v.z
    dx := d.x, dy := d.y, dz := d.z
    magnitudeSq := d.x * d.x + d.y * d.y + d.z * d.z
    dxdP := d.x / dP, dydP := d.y / dP, dzdP := d.z / dP }

/-- `df[~df.duplicated()]`: keep each row whose value has not appeared in an
earlier row (pandas `duplicated` marks later duplicates). -/
def dedupGo {α} [DecidableEq α] (seen : List α) : List α → List α
  | [] => []
  | a :: rest => if a ∈ seen then dedupGo seen rest else a :: dedupGo (a :: seen) rest

/-- Keep the first occurrence of every row value, preserving order. -/
def dedupKeepFirst {α} [DecidableEq α] (l : List α) : List α := dedupGo [] l

/-- `SensitivityStudy.compare_meshes` (lines 348-383): position rows from the
reference mesh, displacement rows `mesh2.vectors - mesh1.vectors`, derived
columns, then duplicate rows dropped. -/
def compare_meshes {α} [Add α] [Sub α] [Mul α] [Div α] [DecidableEq α]
    (mesh1 mesh2 : List (Face α)) (dP : α) : List (SensRow α) :=
  let vectors := flatten_vectors mesh1
  let flat_diff := List.zipWith vsub (flatten_vectors mesh2) vectors
  let rows := List.zipWith (mkSensRow dP) vectors flat_diff
  dedupKeepFirst rows

/-- The perturbation step `dP` of `SensitivityStudy.dGdP` (lines 279-283):
`adjusted_parameters[parameter] *= 1 + perturbation / 100` followed by
`dP = adjusted_parameters[parameter] - value`. -/
def perturbed_dP (value perturbation : ℚ) : ℚ :=
  value * (1 + perturbation / 100) - value

/-! ## Sensitivity engine: `SensitivityStudy.dGdP` dictionary bookkeeping
(utilities.py lines 277-320)

The nested loops `for parameter ...: for component ...:` build the returned
`sensitivities` dict. The per-(component, mesh, parameter) DataFrame returned
by `compare_meshes` is abstracted by a caller-supplied `cmp` function; the
model reproduces the dict/list bookkeeping exactly, in particular the
statement `sensitivities[component] = []` executed inside the parameter
loop. -/

/-- Python dict assignment `d[k] = v` on an insertion-ordered association
list: update in place when the key exists, append otherwise. -/
def dictInsert {β} (d : List (String × β)) (k : String) (v : β) : List (String × β) :=
  if d.any (fun p => p.1 == k) then
    d.map (fun p => if p.1 == k then (k, v) else p)
  else
    d ++ [(k, v)]

/-- `sensitivities[component].append(t)`: append `t` to the list stored at
`component` (the key is present when this is executed). -/
def dictAppendAt {β} (d : List (String × List β)) (k : String) (t : β) :
    List (String × List β) :=
  d.map (fun p => if p.1 == k then (p.1, p.2 ++ [t]) else p)

/-- The `sensitivities` dict built by `dGdP` (lines 272-316). Inputs: the
ordered parameter dictionary with nominal values, the perturbation percentage,
the nominal mesh dictionary given as `(component, number of meshes)` pairs in
iteration order, and `cmp component ix parameter dP` standing for the
DataFrame `compare_meshes(nominal_mesh, parameter_mesh, dP, f"{component}_{ix}",
parameter, True)` of that pair. -/
def dGdP_sensitivities {T : Type} (cmp : String → ℕ → String → ℚ → T)
    (parameter_dict : List (String × ℚ)) (perturbation : ℚ)
    (nominal_meshes : List (String × ℕ)) : List (String × List T) :=
  parameter_dict.foldl
    (fun sens pv =>
      let dP := perturbed_dP pv.2 perturbation
      nominal_meshes.foldl
        (fun sens cm =>
          let sens := dictInsert sens cm.1 []
          (List.range cm.2).foldl
            (fun sens ix => dictAppendAt sens cm.1 (cmp cm.1 ix pv.1 dP))
            sens)
        sens)
    []

/-! ## Mass/inertia aggregator: `assess_inertial_properties`
(utilities.py lines 121-196)

The per-component `(volume, mass, cog, inertia)` tuples are produced by the
external `get_mass_properties_with_density` call (line 166-168); the model
takes them as input, in dict iteration order, and reproduces the accumulation
loops. -/

/-- Per-component mass properties as returned by
`mesh.get_mass_properties_with_density(density)`. -/
structure CompProps (α : Type) where
  volume : α
  vmass : α
  cog : V3 α
  inertia : M3 α
deriving DecidableEq, Repr

/-- Result tuple of `assess_inertial_properties`. -/
structure InertiaResult (α : Type) where
  total_volume : α
  total_mass : α
  composite_cog : V3 α
  composite_inertia : M3 α
deriving DecidableEq, Repr

/-- `assess_inertial_properties` (lines 159-196): accumulate total mass and
volume, accumulate `m * cgs[component]`, scale by `1 / total_mass` (no guard),
then the parallel-axis loop `I_adj = inertias[component] + m * r**2` with
`r = cgs[component] - composite_cog`, summed. -/
def assess_inertial_properties {α} [Add α] [Sub α] [Mul α] [Div α] [Zero α] [One α]
    (comps : List (CompProps α)) : InertiaResult α :=
  let total_mass := comps.foldl (fun acc c => acc + c.vmass) 0
  let total_volume := comps.foldl (fun acc c => acc + c.volume) 0
  let cog_sum := comps.foldl (fun acc c => vadd acc (smulv c.vmass c.cog)) v3zero
  let composite_cog := vmuls cog_sum (1 / total_mass)
  let composite_inertia := comps.foldl
    (fun acc c =>
      let r := vsub c.cog composite_cog
      madd acc (mbroadcast c.inertia (smulv c.vmass (vmul r r))))
    m3zero
  { total_volume := total_volume, total_mass := total_mass
    composite_cog := composite_cog, composite_inertia := composite_inertia }

/-! ## Component pipeline: `Component.reflect` (component.py lines 142-160) -/

/-- A parametric patch: a base surface or the `MirroredPatch` decorator
wrapping an existing patch about an axis. The decorator holds its underlying
patch unmodified. -/
inductive Patch : Type
  | base : ℕ → Patch
  | mirrored : String → Patch → Patch
deriving DecidableEq, Repr

/-- `Component.reflect(axis, append)` acting on the insertion-ordered patch
dictionary: build `mirrored_patches` with derived keys `f"{key}_mirrored"`,
then either assign them into the existing dict one by one (`append=True`) or
replace the dict (`append=False`). -/
def Component_reflect (patches : List (String × Patch)) (axis : String)
    (append : Bool) : List (String × Patch) :=
  let mirrored_patches := patches.map fun kp => (kp.1 ++ "_mirrored", Patch.mirrored axis kp.2)
  if append then
    mirrored_patches.foldl (fun d kp => dictInsert d kp.1 kp.2) patches
  else
    mirrored_patches

/-! ## Point reattachment: `append_sensitivities_to_tri`
(utilities.py lines 386-477)

The stored points are the parsed `points_df` rows; the concatenated
sensitivity tables are `dp_df` rows carrying at least `x, y, z` and the
derivative columns. For each stored point, the first `dp_df` row within the
per-axis tolerance is taken (`dp_df[match].iloc[0]`), tiny derivative entries
are zeroed, and a no-match falls to the `except` branch writing zeros. -/

/-- A row of the concatenated sensitivity data `dp_df` (the columns the
matching loop reads). -/
structure TriRow where
  x : ℚ
  y : ℚ
  z : ℚ
  dxdP : ℚ
  dydP : ℚ
  dzdP : ℚ
deriving DecidableEq, Repr

/-- The per-axis tolerance test (lines 433-438):
`|point.c - row.c| < 1e-5` for each of the three axes, conjoined. -/
def matchRow (p : V3 ℚ) (r : TriRow) : Bool :=
  |p.x - r.x| < 1 / 100000 && |p.y - r.y| < 1 / 100000 && |p.z - r.z| < 1 / 100000

/-- `matched_data[abs(matched_data) < 1e-8] = 0` (line 444), per entry. -/
def roundSmall (v : ℚ) : ℚ := if |v| < 1 / 100000000 then 0 else v

/-- The derivative triplets written by the matching loop (lines 431-456), one
per stored point in order: the rounded derivatives of the first matching row,
or zeros when no row matches. -/
def append_sensitivities (points : List (V3 ℚ)) (dp_rows : List TriRow) :
    List (V3 ℚ) :=
  points.map fun p =>
    match dp_rows.find? (matchRow p) with
    | some r => ⟨roundSmall r.dxdP, roundSmall r.dydP, roundSmall r.dzdP⟩
    | none => ⟨0, 0, 0⟩

/-! ## Auxiliary definitions used by the claim statements -/

/-- Reversal of a vertex-index triple: `(a, b, c) ↦ (c, b, a)`. -/
def rev3 (t : ℕ × ℕ × ℕ) : ℕ × ℕ × ℕ := (t.2.2, t.2.1, t.1)

/-- Cyclic rotation of a vertex-index triple: `(a, b, c) ↦ (b, c, a)`. -/
def rot3 (t : ℕ × ℕ × ℕ) : ℕ × ℕ × ℕ := (t.2.1, t.2.2, t.1)

/-- `s` is an orientation-reversal of `t`: `s` is a cyclic rotation of the
reversed triple of `t` (the triples induce opposite winding orders, hence
opposite cross-product signs of the triangle's edge vectors). -/
def orientationReversed (s t : ℕ × ℕ × ℕ) : Prop :=
  s = rev3 t ∨ s = rot3 (rev3 t) ∨ s = rot3 (rot3 (rev3 t))

/-- The four directed boundary edges of quad cell `(i, j)`; each edge joins
two grid-adjacent corner vertices (neighbours along `r` or along `s`). -/
def adjEdges (N i j : ℕ) : List (ℕ × ℕ) :=
  [(corner_index N i j, corner_index N (i + 1) j),
   (corner_index N (i + 1) j, corner_index N (i + 1) (j + 1)),
   (corner_index N (i + 1) (j + 1), corner_index N i (j + 1)),
   (corner_index N i (j + 1), corner_index N i j)]

/-- A face `t` has the shape claimed for cell `(i, j)`: its vertices are the
two adjacent corners of one boundary edge of the cell together with the
cell's centroid vertex (the centroid sitting in the last or middle slot). -/
def facePattern (N i j : ℕ) (t : ℕ × ℕ × ℕ) : Prop :=
  ∃ e ∈ adjEdges N i j,
    t = (e.1, e.2, centroid_index N i j) ∨ t = (e.1, centroid_index N i j, e.2)

/-- The flat unit-square test surface `evaluate(r, s) = (r, s, 0)`. -/
def sheetSurf : ℚ → ℚ → V3 ℚ := fun r s => ⟨r, s, 0⟩

/-- A degenerate (constant) test surface: every parameter maps to the
origin. -/
def zeroSurf : ℚ → ℚ → V3 ℚ := fun _ _ => ⟨0, 0, 0⟩

/-- A tag recording one `compare_meshes` invocation of `dGdP`: the component,
the mesh index within the component, the perturbed parameter and the step
`dP`. Distinct (parameter, component, mesh) invocations produce distinct
tags, standing for the distinct sensitivity DataFrames. -/
structure SensTable where
  component : String
  ix : ℕ
  parameter : String
  dP : ℚ
deriving DecidableEq, Repr

/-- Componentwise division of a vector by a scalar. -/
def vdivs {α} [Div α] (v : V3 α) (c : α) : V3 α := ⟨v.x / c, v.y / c, v.z / c⟩

/-- Sum of a list of vectors. -/
def vsum (l : List (V3 ℚ)) : V3 ℚ := l.foldr vadd v3zero

/-- Sum of a list of matrices. -/
def msum (l : List (M3 ℚ)) : M3 ℚ := l.foldr madd m3zero

/-- The mass-weighted average of the per-component centers of gravity,
`(Σ mᵢ · cogᵢ) / (Σ mᵢ)`, as the specification words it. -/
def mass_weighted_cog (comps : List (CompProps ℚ)) : V3 ℚ :=
  vdivs (vsum (comps.map fun c => smulv c.vmass c.cog))
    ((comps.map fun c => c.vmass).sum)

/-- The parallel-axis composite inertia as the specification words it: the
sum over components of `I_component + mass_component * r**2`, with `r` the
offset between the component's and the composite's centers of gravity. -/
def shifted_inertia_sum (comps : List (CompProps ℚ)) (cog : V3 ℚ) : M3 ℚ :=
  msum (comps.map fun c =>
    mbroadcast c.inertia (smulv c.vmass (vmul (vsub c.cog cog) (vsub c.cog cog))))

/-! # Theorems -/

/-! ### Unfolding lemmas for the `PyFloat` arithmetic instances -/

lemma PyFloat.add_def (a b : PyFloat) : a + b = PyFloat.pyadd a b := rfl

lemma PyFloat.sub_def (a b : PyFloat) : a - b = PyFloat.pysub a b := rfl

lemma PyFloat.mul_def (a b : PyFloat) : a * b = PyFloat.pymul a b := rfl

lemma PyFloat.div_def (a b : PyFloat) : a / b = PyFloat.pydiv a b := rfl

lemma PyFloat.zero_def : (0 : PyFloat) = PyFloat.fin 0 := rfl

lemma PyFloat.one_def : (1 : PyFloat) = PyFloat.fin 1 := rfl

/-! ### Face-list structure lemmas -/

lemma cell_faces_length (N : ℕ) (flip : Bool) (i j : ℕ) :
    (cell_faces N flip i j).length = 4 := by
  cases flip <;> rfl

lemma flatMap_length_const {α β : Type} (l : List α) (f : α → List β) (c : ℕ)
    (h : ∀ x ∈ l, (f x).length = c) : (l.flatMap f).length = l.length * c := by
  induction l with
  | nil => simp
  | cons a t ih =>
    simp only [List.flatMap_cons, List.length_append, List.length_cons]
    rw [h a (by simp), ih fun x hx => h x (by simp [hx])]
    ring

lemma faces_list_length (N : ℕ) (flip : Bool) :
    (faces_list N flip).length = 4 * N ^ 2 := by
  unfold faces_list
  rw [flatMap_length_const _ _ (4 * N)]
  · rw [List.length_range]; ring
  · intro i _
    rw [flatMap_length_const _ _ 4]
    · rw [List.length_range]; ring
    · intro j _
      exact cell_faces_length N flip i j

lemma mem_faces_list {N : ℕ} {flip : Bool} {t : ℕ × ℕ × ℕ}
    (ht : t ∈ faces_list N flip) :
    ∃ i j, i < N ∧ j < N ∧ t ∈ cell_faces N flip i j := by
  unfold faces_list at ht
  simp only [List.mem_flatMap, List.mem_range] at ht
  obtain ⟨i, hi, j, hj, h⟩ := ht
  exact ⟨i, j, hi, hj, h⟩

lemma corner_index_lt {N i j : ℕ} (hi : i ≤ N) (hj : j ≤ N) :
    corner_index N i j < (N + 1) ^ 2 := by
  unfold corner_index
  nlinarith

lemma centroid_index_bounds {N i j : ℕ} (hi : i < N) (hj : j < N) :
    (N + 1) ^ 2 ≤ centroid_index N i j ∧ centroid_index N i j < num_vertices N := by
  unfold centroid_index num_vertices
  constructor
  · omega
  · nlinarith

lemma corner_index_lt_num {N i j : ℕ} (hi : i ≤ N) (hj : j ≤ N) :
    corner_index N i j < num_vertices N :=
  lt_of_lt_of_le (corner_index_lt hi hj) (Nat.le_add_right _ _)

lemma mem_cell_faces_bounds {N : ℕ} {flip : Bool} {i j : ℕ} (hi : i < N) (hj : j < N)
    {t : ℕ × ℕ × ℕ} (ht : t ∈ cell_faces N flip i j) :
    t.1 < num_vertices N ∧ t.2.1 < num_vertices N ∧ t.2.2 < num_vertices N := by
  have h00 : corner_index N i j < num_vertices N := corner_index_lt_num (by omega) (by omega)
  have h10 : corner_index N (i + 1) j < num_vertices N := corner_index_lt_num (by omega) (by omega)
  have h01 : corner_index N i (j + 1) < num_vertices N := corner_index_lt_num (by omega) (by omega)
  have h11 : corner_index N (i + 1) (j + 1) < num_vertices N := corner_index_lt_num (by omega) (by omega)
  have hzz : centroid_index N i j < num_vertices N := (centroid_index_bounds hi hj).2
  cases flip <;>
    simp [cell_faces] at ht <;>
    rcases ht with rfl | rfl | rfl | rfl <;>
    exact ⟨by assumption, by assumption, by assumption⟩

lemma mem_cell_faces_pattern {N : ℕ} {flip : Bool} {i j : ℕ}
    {t : ℕ × ℕ × ℕ} (ht : t ∈ cell_faces N flip i j) : facePattern N i j t := by
  cases flip <;>
    simp [cell_faces] at ht <;>
    rcases ht with rfl | rfl | rfl | rfl <;>
    first
    | exact ⟨(corner_index N i j, corner_index N (i + 1) j),
        by simp [adjEdges], by first | exact Or.inl rfl | exact Or.inr rfl⟩
    | exact ⟨(corner_index N (i + 1) j, corner_index N (i + 1) (j + 1)),
        by simp [adjEdges], by first | exact Or.inl rfl | exact Or.inr rfl⟩
    | exact ⟨(corner_index N (i + 1) (j + 1), corner_index N i (j + 1)),
        by simp [adjEdges], by first | exact Or.inl rfl | exact Or.inr rfl⟩
    | exact ⟨(corner_index N i (j + 1), corner_index N i j),
        by simp [adjEdges], by first | exact Or.inl rfl | exact Or.inr rfl⟩

lemma corner_index_decode {N i j : ℕ} (hi : i ≤ N) :
    corner_index N i j % (N + 1) = i ∧ corner_index N i j / (N + 1) = j := by
  unfold corner_index
  have h1 : j * (N + 1) + i = i + j * (N + 1) := Nat.add_comm _ _
  constructor
  · rw [h1, Nat.add_mul_mod_self_right, Nat.mod_eq_of_lt (by omega)]
  · rw [h1, Nat.add_mul_div_right _ _ (Nat.succ_pos N), Nat.div_eq_of_lt (by omega), Nat.zero_add]

lemma centroid_index_decode {N i j : ℕ} (hN : 1 ≤ N) (hi : i < N) :
    (centroid_index N i j - (N + 1) ^ 2) % N = i ∧
    (centroid_index N i j - (N + 1) ^ 2) / N = j := by
  unfold centroid_index
  rw [Nat.add_sub_cancel_left]
  have h1 : j * N + i = i + j * N := Nat.add_comm _ _
  constructor
  · rw [h1, Nat.add_mul_mod_self_right, Nat.mod_eq_of_lt (by omega)]
  · rw [h1, Nat.add_mul_div_right _ _ (by omega : 0 < N), Nat.div_eq_of_lt (by omega), Nat.zero_add]

lemma vertex_index_cases {N k : ℕ} (hN : 1 ≤ N) (hk : k < num_vertices N) :
    (∃ i j, i ≤ N ∧ j ≤ N ∧ k = corner_index N i j) ∨
    (∃ i j, i < N ∧ j < N ∧ k = centroid_index N i j) := by
  by_cases hc : k < (N + 1) ^ 2
  · left
    have hmod : k % (N + 1) < N + 1 := Nat.mod_lt k (Nat.succ_pos N)
    have hdiv : k / (N + 1) < N + 1 := by
      refine Nat.div_lt_of_lt_mul ?_
      rw [pow_two (N + 1)] at hc
      exact hc
    refine ⟨k % (N + 1), k / (N + 1), by omega, by omega, ?_⟩
    unfold corner_index
    exact (Nat.div_add_mod' k (N + 1)).symm
  · right
    push_neg at hc
    have hmlt : k - (N + 1) ^ 2 < N ^ 2 := by
      unfold num_vertices at hk
      omega
    have hdiv : (k - (N + 1) ^ 2) / N < N := by
      refine Nat.div_lt_of_lt_mul ?_
      rw [pow_two N] at hmlt
      exact hmlt
    refine ⟨(k - (N + 1) ^ 2) % N, (k - (N + 1) ^ 2) / N, Nat.mod_lt _ (by omega), hdiv, ?_⟩
    unfold centroid_index
    rw [Nat.div_add_mod']
    exact (Nat.add_sub_cancel' hc).symm

lemma corner_index_inj {N i j i' j' : ℕ} (hi : i ≤ N) (hi' : i' ≤ N)
    (h : corner_index N i j = corner_index N i' j') : i = i' ∧ j = j' := by
  have d1 := corner_index_decode (N := N) (j := j) hi
  have d2 := corner_index_decode (N := N) (j := j') hi'
  rw [h] at d1
  exact ⟨d1.1.symm.trans d2.1, d1.2.symm.trans d2.2⟩

lemma centroid_index_inj {N i j i' j' : ℕ} (hN : 1 ≤ N) (hi : i < N) (hi' : i' < N)
    (h : centroid_index N i j = centroid_index N i' j') : i = i' ∧ j = j' := by
  have d1 := centroid_index_decode (N := N) (j := j) hN hi
  have d2 := centroid_index_decode (N := N) (j := j') hN hi'
  rw [h] at d1
  exact ⟨d1.1.symm.trans d2.1, d1.2.symm.trans d2.2⟩

/-- **C2**: for every resolution `N ≥ 1`, the tessellator reserves exactly
`(N+1)² + N²` vertex slots, and every slot is either a grid-corner slot or a
quad-cell centroid slot (both index families injective, so the counts are
exact); the face list has exactly `4·N²` triangles, every face index is in
`[0, vertexCount)`, and every face joins two adjacent corners of its cell to
that cell's centroid vertex. -/
theorem c2_vertex_and_face_structure (N : ℕ) (hN : 1 ≤ N) :
    (∀ flip : Bool, (faces_list N flip).length = 4 * N ^ 2) ∧
    (∀ (flip : Bool) (t : ℕ × ℕ × ℕ), t ∈ faces_list N flip →
      t.1 < num_vertices N ∧ t.2.1 < num_vertices N ∧ t.2.2 < num_vertices N) ∧
    (∀ (flip : Bool) (t : ℕ × ℕ × ℕ), t ∈ faces_list N flip →
      ∃ i j, i < N ∧ j < N ∧ facePattern N i j t) ∧
    (∀ k, k < num_vertices N →
      (∃ i j, i ≤ N ∧ j ≤ N ∧ k = corner_index N i j) ∨
      (∃ i j, i < N ∧ j < N ∧ k = centroid_index N i j)) ∧
    (∀ i j, i ≤ N → j ≤ N → corner_index N i j < (N + 1) ^ 2) ∧
    (∀ i j, i < N → j < N →
      (N + 1) ^ 2 ≤ centroid_index N i j ∧ centroid_index N i j < num_vertices N) ∧
    (∀ i j i' j', i ≤ N → i' ≤ N →
      corner_index N i j = corner_index N i' j' → i = i' ∧ j = j') ∧
    (∀ i j i' j', i < N → i' < N →
      centroid_index N i j = centroid_index N i' j' → i = i' ∧ j = j') := by
  refine ⟨fun flip => faces_list_length N flip, ?_, ?_, ?_, ?_, ?_, ?_, ?_⟩
  · intro flip t ht
    obtain ⟨i, j, hi, hj, hmem⟩ := mem_faces_list ht
    exact mem_cell_faces_bounds hi hj hmem
  · intro flip t ht
    obtain ⟨i, j, hi, hj, hmem⟩ := mem_faces_list ht
    exact ⟨i, j, hi, hj, mem_cell_faces_pattern hmem⟩
  · intro k hk
    exact vertex_index_cases hN hk
  · intro i j hi hj
    exact corner_index_lt hi hj
  · intro i j hi hj
    exact centroid_index_bounds hi hj
  · intro i j i' j' hi hi' h
    exact corner_index_inj hi hi' h
  · intro i j i' j' hi hi' h
    exact centroid_index_inj hN hi hi' h

/-- Witness for C2 at the concrete resolution `N = 1`. -/
theorem c2_vertex_and_face_structure_witness :
    1 ≤ 1 ∧ (∀ flip : Bool, (faces_list 1 flip).length = 4 * 1 ^ 2) :=
  ⟨by decide, (c2_vertex_and_face_structure 1 (by decide)).1⟩

/-! ### C5: winding reversal under `mirror_y` / `flip_faces` -/

lemma cell_faces_orientation (N i j : ℕ) :
    List.Forall₂ orientationReversed (cell_faces N true i j) (cell_faces N false i j) := by
  refine List.Forall₂.cons ?_ (List.Forall₂.cons ?_
    (List.Forall₂.cons ?_ (List.Forall₂.cons ?_ List.Forall₂.nil))) <;>
    exact Or.inr (Or.inr rfl)

lemma forall2_flatMap {α β : Type} {R : α → α → Prop} (l : List β) (f g : β → List α)
    (h : ∀ x ∈ l, List.Forall₂ R (f x) (g x)) :
    List.Forall₂ R (l.flatMap f) (l.flatMap g) := by
  induction l with
  | nil => exact List.Forall₂.nil
  | cons a t ih =>
    simp only [List.flatMap_cons]
    exact List.rel_append (h a (by simp)) (ih fun x hx => h x (by simp [hx]))

/-- **C5**: with `mirror_y` or `flip_faces` set, every one of the `4·N²`
faces of the tessellation is the orientation-reversal (an odd permutation,
flipping the winding order and hence the cross-product sign) of the
corresponding face of the unflipped tessellation. The face-index lists do not
depend on the surface, so this holds for every surface. -/
theorem c5_flip_reverses_winding (N : ℕ) (mirror_y flip_faces : Bool)
    (h : (mirror_y || flip_faces) = true) :
    List.Forall₂ orientationReversed (parametric_faces N mirror_y flip_faces)
      (parametric_faces N false false) ∧
    (parametric_faces N mirror_y flip_faces).length = 4 * N ^ 2 := by
  unfold parametric_faces
  rw [h]
  constructor
  · exact forall2_flatMap _ _ _ fun i _ =>
      forall2_flatMap _ _ _ fun j _ => cell_faces_orientation N i j
  · exact faces_list_length N true

/-- Witness for C5 at `N = 1`, `mirror_y = true`, `flip_faces = false`. -/
theorem c5_flip_reverses_winding_witness :
    (true || false) = true ∧ (parametric_faces 1 true false).length = 4 * 1 ^ 2 :=
  ⟨by decide, (c5_flip_reverses_winding 1 true false (by decide)).2⟩


/-! ### C4: exact centroid re-evaluation bug -/

/-- **C4** (code bug): with `re_evaluate_centroid=True` the code evaluates
the surface at `(midpoint of [r_i, r_{i+1}], s_j)` instead of the cell's
interior parameter midpoint, because the statement meant to set `s` assigns
`r` a second time (utilities.py lines 57-58). For the flat sheet
`f(r, s) = (r, s, 0)` at `N = 1`, cell `(0, 0)`, the code produces
`(1/2, 0, 0)` while the claimed midpoint evaluation gives `(1/2, 1/2, 0)`.
(The surrounding `try/except: pass` also leaves the vertex slot unwritten on
failure instead of falling back to the bilinear average.) -/
theorem c4_centroid_reeval_bug :
    centroid_reeval sheetSurf 1 false 0 0 = ⟨1/2, 0, 0⟩ ∧
    centroid_midpoint_spec sheetSurf 1 false 0 0 = ⟨1/2, 1/2, 0⟩ ∧
    centroid_reeval sheetSurf 1 false 0 0 ≠ centroid_midpoint_spec sheetSurf 1 false 0 0 := by
  have h1 : centroid_reeval sheetSurf 1 false 0 0 = ⟨1/2, 0, 0⟩ := by
    unfold centroid_reeval sheetSurf rparam y_mult
    norm_num
  have h2 : centroid_midpoint_spec sheetSurf 1 false 0 0 = ⟨1/2, 1/2, 0⟩ := by
    unfold centroid_midpoint_spec sheetSurf rparam y_mult
    norm_num
  refine ⟨h1, h2, ?_⟩
  rw [h1, h2]
  intro h
  have := congrArg V3.y h
  norm_num at this

/-! ### C1: `dGdP` overwrites earlier parameters' tables -/

/-- **C1** (code bug): `dGdP` resets `sensitivities[component] = []` inside
the per-parameter loop, so for the two-parameter dictionary
`{"alpha": 1, "beta": 1}` (perturbation 20%, giving `dP = 1/5`) and one
component `"wing"` holding one mesh, the returned dictionary contains only
the table of the last parameter `"beta"`; the table computed for
`("wing", "alpha")` has been discarded. -/
theorem c1_dGdP_drops_tables :
    dGdP_sensitivities SensTable.mk [("alpha", 1), ("beta", 1)] 20 [("wing", 1)]
      = [("wing", [⟨"wing", 0, "beta", perturbed_dP 1 20⟩])] ∧
    perturbed_dP 1 20 = 1/5 ∧
    ∀ kv ∈ dGdP_sensitivities SensTable.mk [("alpha", 1), ("beta", 1)] 20 [("wing", 1)],
      ∀ t ∈ kv.2, t.parameter ≠ "alpha" := by
  have h : dGdP_sensitivities SensTable.mk [("alpha", 1), ("beta", 1)] 20 [("wing", 1)]
      = [("wing", [⟨"wing", 0, "beta", perturbed_dP 1 20⟩])] := by rfl
  refine ⟨h, by unfold perturbed_dP; norm_num, ?_⟩
  intro kv hkv t ht
  rw [h] at hkv
  simp only [List.mem_singleton] at hkv
  subst hkv
  simp only [List.mem_singleton] at ht
  subst ht
  decide

/-! ### C6: `Component.reflect` -/

lemma dictInsert_fresh {β : Type} (d : List (String × β)) (k : String) (v : β)
    (h : ∀ q ∈ d, q.1 ≠ k) : dictInsert d k v = d ++ [(k, v)] := by
  unfold dictInsert
  rw [if_neg]
  simp only [List.any_eq_true, beq_iff_eq, not_exists]
  intro q
  intro hc
  exact h q hc.1 hc.2

lemma foldl_dictInsert_fresh {β : Type} :
    ∀ (new d : List (String × β)),
      (∀ kp ∈ new, ∀ q ∈ d, q.1 ≠ kp.1) → (new.map Prod.fst).Nodup →
      new.foldl (fun acc kp => dictInsert acc kp.1 kp.2) d = d ++ new := by
  intro new
  induction new with
  | nil => intro d _ _; simp
  | cons a t ih =>
    intro d hfresh hnodup
    have hanotin : a.1 ∉ t.map Prod.fst := (List.nodup_cons.mp hnodup).1
    simp only [List.foldl_cons]
    rw [dictInsert_fresh d a.1 a.2 fun q hq => hfresh a (by simp) q hq]
    rw [ih (d ++ [a]) ?_ (List.nodup_cons.mp hnodup).2]
    · simp
    · intro kp hkp q hq
      rcases List.mem_append.mp hq with hq | hq
      · exact hfresh kp (by simp [hkp]) q hq
      · simp only [List.mem_singleton] at hq
        subst hq
        intro hc
        exact hanotin (hc ▸ List.mem_map_of_mem Prod.fst hkp)

lemma mirrored_keys_nodup (patches : List (String × Patch)) (ax : String)
    (h : (patches.map Prod.fst).Nodup) :
    ((patches.map fun kp => (kp.1 ++ "_mirrored", Patch.mirrored ax kp.2)).map
      Prod.fst).Nodup := by
  have hmap : (patches.map fun kp => (kp.1 ++ "_mirrored", Patch.mirrored ax kp.2)).map
      Prod.fst = (patches.map Prod.fst).map (fun s => s ++ "_mirrored") := by
    simp [List.map_map]
  rw [hmap]
  refine List.Nodup.map ?_ h
  intro a b hab
  have hab2 : a ++ "_mirrored" = b ++ "_mirrored" := hab
  have h2 : (a ++ "_mirrored").toList = (b ++ "_mirrored").toList := by rw [hab2]
  simp at h2
  exact String.ext h2

/-- **C6 (amended)**: provided every derived key `<k>_mirrored` is fresh (not
already a key of the collection) — which a key collision such as the one in
`c6_reflect_collision` violates — `reflect(axis, append=True)` appends
exactly one mirrored decorator per patch, doubling the collection, and
`reflect(axis, append=False)` replaces the collection by the mirrored
decorators keyed `<k>_mirrored`, keeping its size; in both cases each
original patch reappears unmodified inside its `Patch.mirrored` wrapper. -/
theorem c6_reflect_amended (patches : List (String × Patch)) (ax : String)
    (hne : patches ≠ [])
    (hnodup : (patches.map Prod.fst).Nodup)
    (hfresh : ∀ kp ∈ patches, (kp.1 ++ "_mirrored") ∉ patches.map Prod.fst) :
    Component_reflect patches ax true
      = patches ++ patches.map (fun kp => (kp.1 ++ "_mirrored", Patch.mirrored ax kp.2)) ∧
    (Component_reflect patches ax true).length = 2 * patches.length ∧
    Component_reflect patches ax false
      = patches.map (fun kp => (kp.1 ++ "_mirrored", Patch.mirrored ax kp.2)) ∧
    (Component_reflect patches ax false).length = patches.length := by
  have heq : Component_reflect patches ax true
      = patches ++ patches.map (fun kp => (kp.1 ++ "_mirrored", Patch.mirrored ax kp.2)) := by
    unfold Component_reflect
    simp only [if_true]
    refine foldl_dictInsert_fresh _ _ ?_ (mirrored_keys_nodup patches ax hnodup)
    intro kp hkp q hq
    obtain ⟨kp0, hkp0, rfl⟩ := List.mem_map.mp hkp
    intro hc
    simp only at hc
    refine hfresh kp0 hkp0 ?_
    rw [← hc]
    exact List.mem_map_of_mem Prod.fst hq
  refine ⟨heq, ?_, rfl, by simp [Component_reflect]⟩
  rw [heq]
  simp [Nat.two_mul]

/-- **C6 (counterexample)**: with the two-patch collection
`{"a": p, "a_mirrored": q}` the derived key `"a_mirrored"` collides with an
existing key, so `reflect("y", append=True)` yields 3 patches, not the
claimed doubled size 4. -/
theorem c6_reflect_collision :
    (Component_reflect [("a", Patch.base 0), ("a_mirrored", Patch.base 1)] "y" true).length
      = 3 ∧
    2 * ([("a", Patch.base 0), ("a_mirrored", Patch.base 1)] : List (String × Patch)).length
      = 4 := by
  exact ⟨rfl, rfl⟩

/-- Witness for the amended C6 on the singleton collection `{"a": p}`. -/
theorem c6_reflect_amended_witness :
    ([("a", Patch.base 0)] : List (String × Patch)) ≠ [] ∧
    (Component_reflect [("a", Patch.base 0)] "y" true).length = 2 * 1 :=
  ⟨by simp,
    (c6_reflect_amended [("a", Patch.base 0)] "y" (by simp) (by simp) (by decide)).2.1⟩

/-! ### C3: `compare_meshes` -/

lemma mem_dedupGo {α : Type} [DecidableEq α] :
    ∀ (l seen : List α) (a : α), a ∈ dedupGo seen l → a ∈ l := by
  intro l
  induction l with
  | nil => intro seen a h; exact absurd h (by simp [dedupGo])
  | cons b t ih =>
    intro seen a h
    unfold dedupGo at h
    by_cases hb : b ∈ seen
    · rw [if_pos hb] at h
      exact List.mem_cons_of_mem b (ih seen a h)
    · rw [if_neg hb] at h
      rcases List.mem_cons.mp h with rfl | h
      · exact List.mem_cons_self a t
      · exact List.mem_cons_of_mem b (ih (b :: seen) a h)

lemma dedupGo_sublist {α : Type} [DecidableEq α] :
    ∀ (l seen : List α), (dedupGo seen l).Sublist l := by
  intro l
  induction l with
  | nil => intro seen; simp [dedupGo]
  | cons b t ih =>
    intro seen
    unfold dedupGo
    by_cases hb : b ∈ seen
    · rw [if_pos hb]
      exact (ih seen).cons b
    · rw [if_neg hb]
      exact (ih (b :: seen)).cons₂ b

lemma dedupGo_nodup {α : Type} [DecidableEq α] :
    ∀ (l seen : List α), (dedupGo seen l).Nodup ∧ ∀ a ∈ dedupGo seen l, a ∉ seen := by
  intro l
  induction l with
  | nil => intro seen; simp [dedupGo]
  | cons b t ih =>
    intro seen
    unfold dedupGo
    by_cases hb : b ∈ seen
    · rw [if_pos hb]
      exact ih seen
    · rw [if_neg hb]
      obtain ⟨hnd, hout⟩ := ih (b :: seen)
      refine ⟨List.nodup_cons.mpr ⟨fun hmem => ?_, hnd⟩, ?_⟩
      · exact (hout b hmem) (List.mem_cons_self b seen)
      · intro a ha
        rcases List.mem_cons.mp ha with rfl | ha
        · exact hb
        · intro hseen
          exact hout a ha (List.mem_cons_of_mem b hseen)

lemma dedupGo_complete {α : Type} [DecidableEq α] :
    ∀ (l seen : List α) (q : α), q ∈ l → q ∈ dedupGo seen l ∨ q ∈ seen := by
  intro l
  induction l with
  | nil => intro seen q h; exact absurd h (List.not_mem_nil q)
  | cons b t ih =>
    intro seen q h
    unfold dedupGo
    by_cases hb : b ∈ seen
    · rw [if_pos hb]
      rcases List.mem_cons.mp h with rfl | h
      · exact Or.inr hb
      · exact ih seen q h
    · rw [if_neg hb]
      rcases List.mem_cons.mp h with rfl | h
      · exact Or.inl (List.mem_cons_self q _)
      · rcases ih (b :: seen) q h with hin | hin
        · exact Or.inl (List.mem_cons_of_mem b hin)
        · rcases List.mem_cons.mp hin with rfl | hin
          · exact Or.inl (List.mem_cons_self q _)
          · exact Or.inr hin

lemma mem_zipWith_get {α β γ : Type} (f : α → β → γ) :
    ∀ (l1 : List α) (l2 : List β) (c : γ), c ∈ List.zipWith f l1 l2 →
      ∃ k, ∃ (h1 : k < l1.length) (h2 : k < l2.length),
        c = f (l1.get ⟨k, h1⟩) (l2.get ⟨k, h2⟩) := by
  intro l1
  induction l1 with
  | nil => intro l2 c h; exact absurd h (by simp)
  | cons a t ih =>
    intro l2 c h
    cases l2 with
    | nil => exact absurd h (by simp)
    | cons b t2 =>
      rw [List.zipWith_cons_cons] at h
      rcases List.mem_cons.mp h with rfl | h
      · exact ⟨0, by simp, by simp, rfl⟩
      · obtain ⟨k, h1, h2, hc⟩ := ih t2 c h
        exact ⟨k + 1, by simpa using h1, by simpa using h2, hc⟩

/-- **C3 (amended)**: the table built by `compare_meshes` has one row per
*distinct* flattened (face, vertex) record — pandas `duplicated` removes every
repeated row, keeping first occurrences in flattened face-traversal order
(a sublist of the per-face-vertex rows containing each of their values
exactly once). Each surviving row's deltas are `perturbed − nominal` at its
flattened index, the sensitivities are the deltas divided by `dP`, and the
`magnitude` column (the square root of the stored `magnitudeSq`) is the
Euclidean norm of `(dx, dy, dz)`. -/
theorem c3_compare_meshes_amended (m1 m2 : List (Face ℚ)) (dP : ℚ)
    (hlen : m1.length = m2.length) :
    (∀ r ∈ compare_meshes m1 m2 dP, ∃ k, ∃ (h1 : k < (flatten_vectors m1).length)
      (h2 : k < (flatten_vectors m2).length),
      r = mkSensRow dP ((flatten_vectors m1).get ⟨k, h1⟩)
        (vsub ((flatten_vectors m2).get ⟨k, h2⟩) ((flatten_vectors m1).get ⟨k, h1⟩))) ∧
    (∀ r ∈ compare_meshes m1 m2 dP,
      r.dxdP = r.dx / dP ∧ r.dydP = r.dy / dP ∧ r.dzdP = r.dz / dP ∧
      r.magnitudeSq = r.dx * r.dx + r.dy * r.dy + r.dz * r.dz ∧
      Real.sqrt ((r.magnitudeSq : ℚ) : ℝ)
        = ‖(WithLp.equiv 2 (Fin 3 → ℝ)).symm ![(r.dx : ℝ), (r.dy : ℝ), (r.dz : ℝ)]‖) ∧
    (compare_meshes m1 m2 dP).Nodup ∧
    (compare_meshes m1 m2 dP).Sublist
      (List.zipWith (mkSensRow dP) (flatten_vectors m1)
        (List.zipWith vsub (flatten_vectors m2) (flatten_vectors m1))) ∧
    (∀ q ∈ List.zipWith (mkSensRow dP) (flatten_vectors m1)
        (List.zipWith vsub (flatten_vectors m2) (flatten_vectors m1)),
      q ∈ compare_meshes m1 m2 dP) := by
  have hmem : ∀ r ∈ compare_meshes m1 m2 dP,
      r ∈ List.zipWith (mkSensRow dP) (flatten_vectors m1)
        (List.zipWith vsub (flatten_vectors m2) (flatten_vectors m1)) := by
    intro r hr
    exact mem_dedupGo _ _ _ hr
  have hshape : ∀ r ∈ compare_meshes m1 m2 dP, ∃ v d, r = mkSensRow dP v d := by
    intro r hr
    obtain ⟨k, h1, h2, hk⟩ := mem_zipWith_get _ _ _ _ (hmem r hr)
    exact ⟨_, _, hk⟩
  refine ⟨?_, ?_, (dedupGo_nodup _ _).1, dedupGo_sublist _ _, ?_⟩
  · intro r hr
    obtain ⟨k, h1, h2, hk⟩ := mem_zipWith_get _ _ _ _ (hmem r hr)
    have h2' : k < (flatten_vectors m2).length := by
      have := h2
      rw [List.length_zipWith] at this
      omega
    refine ⟨k, h1, h2', ?_⟩
    rw [hk]
    congr 1
    rw [List.get_eq_getElem, List.getElem_zipWith]
    rfl
  · intro r hr
    obtain ⟨v, d, rfl⟩ := hshape r hr
    refine ⟨rfl, rfl, rfl, rfl, ?_⟩
    rw [EuclideanSpace.norm_eq]
    rw [Fin.sum_univ_three]
    simp only [mkSensRow, WithLp.equiv_symm_pi_apply, Matrix.cons_val_zero,
      Matrix.cons_val_one, Matrix.head_cons, Matrix.cons_val_two, Matrix.tail_cons,
      Real.norm_eq_abs, sq_abs]
    congr 1
    push_cast
    ring
  · intro q hq
    rcases dedupGo_complete _ [] q hq with h | h
    · exact h
    · exact absurd h (List.not_mem_nil q)

/-- **C3 (counterexample)**: tessellating the constant surface at `N = 1`
and comparing the mesh with itself collapses the table to a single row,
while the tessellation has `num_vertices 1 = 5` vertices (and the mesh has
12 per-face-vertex rows), so the table does not have one row per vertex. -/
theorem c3_one_row_per_vertex_fails :
    (compare_meshes (stl_vectors zeroSurf 1 false false)
      (stl_vectors zeroSurf 1 false false) 1).length = 1 ∧
    num_vertices 1 = 5 ∧
    (flatten_vectors (stl_vectors zeroSurf 1 false false)).length = 12 := by
  have hr : List.range 1 = [0] := by simp [List.range_succ]
  have hz : stl_vectors zeroSurf 1 false false
      = [(⟨⟨0,0,0⟩, ⟨0,0,0⟩, ⟨0,0,0⟩⟩ : Face ℚ), ⟨⟨0,0,0⟩, ⟨0,0,0⟩, ⟨0,0,0⟩⟩,
         ⟨⟨0,0,0⟩, ⟨0,0,0⟩, ⟨0,0,0⟩⟩, ⟨⟨0,0,0⟩, ⟨0,0,0⟩, ⟨0,0,0⟩⟩] := by
    simp [stl_vectors, parametric_faces, faces_list, cell_faces, stl_vertex,
      corner_vertex, centroid_bilinear, zeroSurf, rparam, y_mult, hr,
      List.flatMap_cons, List.flatMap_nil]
  rw [hz]
  refine ⟨?_, rfl, rfl⟩
  have hc : compare_meshes
      [(⟨⟨0,0,0⟩, ⟨0,0,0⟩, ⟨0,0,0⟩⟩ : Face ℚ), ⟨⟨0,0,0⟩, ⟨0,0,0⟩, ⟨0,0,0⟩⟩,
       ⟨⟨0,0,0⟩, ⟨0,0,0⟩, ⟨0,0,0⟩⟩, ⟨⟨0,0,0⟩, ⟨0,0,0⟩, ⟨0,0,0⟩⟩]
      [(⟨⟨0,0,0⟩, ⟨0,0,0⟩, ⟨0,0,0⟩⟩ : Face ℚ), ⟨⟨0,0,0⟩, ⟨0,0,0⟩, ⟨0,0,0⟩⟩,
       ⟨⟨0,0,0⟩, ⟨0,0,0⟩, ⟨0,0,0⟩⟩, ⟨⟨0,0,0⟩, ⟨0,0,0⟩, ⟨0,0,0⟩⟩] 1
      = [⟨0,0,0,0,0,0,0,0,0,0⟩] := by
    simp [compare_meshes, flatten_vectors, mkSensRow, vsub, dedupKeepFirst, dedupGo]
  rw [hc]
  rfl

/-- Witness for the amended C3 on a concrete one-face mesh pair. -/
theorem c3_compare_meshes_amended_witness :
    ([(⟨⟨0,0,0⟩, ⟨0,0,0⟩, ⟨0,0,0⟩⟩ : Face ℚ)].length
      = [(⟨⟨1,0,0⟩, ⟨0,1,0⟩, ⟨0,0,1⟩⟩ : Face ℚ)].length) ∧
    (compare_meshes [(⟨⟨0,0,0⟩, ⟨0,0,0⟩, ⟨0,0,0⟩⟩ : Face ℚ)]
      [(⟨⟨1,0,0⟩, ⟨0,1,0⟩, ⟨0,0,1⟩⟩ : Face ℚ)] 1).Nodup :=
  ⟨rfl, (c3_compare_meshes_amended
    [(⟨⟨0,0,0⟩, ⟨0,0,0⟩, ⟨0,0,0⟩⟩ : Face ℚ)]
    [(⟨⟨1,0,0⟩, ⟨0,1,0⟩, ⟨0,0,1⟩⟩ : Face ℚ)] 1 rfl).2.2.1⟩

/-! ### C7: `assess_inertial_properties` over exact arithmetic -/

lemma v3add_assoc (a b c : V3 ℚ) : vadd (vadd a b) c = vadd a (vadd b c) := by
  simp [vadd, add_assoc]

lemma v3add_zero (a : V3 ℚ) : vadd a v3zero = a := by
  simp [vadd, v3zero]

lemma zero_v3add (a : V3 ℚ) : vadd v3zero a = a := by
  simp [vadd, v3zero]

lemma m3add_assoc (a b c : M3 ℚ) : madd (madd a b) c = madd a (madd b c) := by
  simp [madd, v3add_assoc]

lemma m3add_zero (a : M3 ℚ) : madd a m3zero = a := by
  simp [madd, m3zero, v3add_zero]

lemma zero_m3add (a : M3 ℚ) : madd m3zero a = a := by
  simp [madd, m3zero, zero_v3add]

lemma foldl_vmass (comps : List (CompProps ℚ)) :
    ∀ init : ℚ, comps.foldl (fun acc c => acc + c.vmass) init
      = init + (comps.map fun c => c.vmass).sum := by
  induction comps with
  | nil => intro init; simp
  | cons c t ih => intro init; simp [ih, add_assoc]

lemma foldl_volume (comps : List (CompProps ℚ)) :
    ∀ init : ℚ, comps.foldl (fun acc c => acc + c.volume) init
      = init + (comps.map fun c => c.volume).sum := by
  induction comps with
  | nil => intro init; simp
  | cons c t ih => intro init; simp [ih, add_assoc]

lemma foldl_cog (comps : List (CompProps ℚ)) :
    ∀ init : V3 ℚ, comps.foldl (fun acc c => vadd acc (smulv c.vmass c.cog)) init
      = vadd init (vsum (comps.map fun c => smulv c.vmass c.cog)) := by
  induction comps with
  | nil => intro init; simp [vsum, v3add_zero]
  | cons c t ih => intro init; simp [vsum, ih, v3add_assoc]

lemma foldl_inertia (comps : List (CompProps ℚ)) (cog : V3 ℚ) :
    ∀ init : M3 ℚ,
      comps.foldl (fun acc c =>
        madd acc (mbroadcast c.inertia
          (smulv c.vmass (vmul (vsub c.cog cog) (vsub c.cog cog))))) init
      = madd init (msum (comps.map fun c =>
          mbroadcast c.inertia
            (smulv c.vmass (vmul (vsub c.cog cog) (vsub c.cog cog))))) := by
  induction comps with
  | nil => intro init; simp [msum, m3add_zero]
  | cons c t ih => intro init; simp [msum, ih, m3add_assoc]

lemma vmuls_one_div (v : V3 ℚ) (M : ℚ) : vmuls v (1 / M) = vdivs v M := by
  simp [vmuls, vdivs, div_eq_mul_inv]

/-- **C7**: for a non-empty component set with positive total mass, the
aggregator returns the sum of the volumes, the sum of the masses, the
mass-weighted average of the centers of gravity, and the sum over components
of `I_component + mass_component * r**2` with `r` the offset between the
component's and the composite's centers of gravity (numpy broadcasting adds
the `m*r**2` vector to each row of the inertia matrix). -/
theorem c7_composite_inertial_properties (comps : List (CompProps ℚ))
    (hne : comps ≠ []) (hpos : 0 < (comps.map fun c => c.vmass).sum) :
    (assess_inertial_properties comps).total_volume = (comps.map fun c => c.volume).sum ∧
    (assess_inertial_properties comps).total_mass = (comps.map fun c => c.vmass).sum ∧
    (assess_inertial_properties comps).composite_cog = mass_weighted_cog comps ∧
    (assess_inertial_properties comps).composite_inertia
      = shifted_inertia_sum comps (assess_inertial_properties comps).composite_cog := by
  simp only [assess_inertial_properties]
  refine ⟨?_, ?_, ?_, ?_⟩
  · rw [foldl_volume, zero_add]
  · rw [foldl_vmass, zero_add]
  · rw [foldl_cog, zero_v3add, foldl_vmass, zero_add, vmuls_one_div]
    rfl
  · rw [foldl_inertia, zero_m3add]
    rw [shifted_inertia_sum]

/-- Witness for C7 on a one-component list with mass 2. -/
theorem c7_composite_inertial_properties_witness :
    ([(⟨1, 2, ⟨1, 2, 3⟩, ⟨⟨1, 0, 0⟩, ⟨0, 1, 0⟩, ⟨0, 0, 1⟩⟩⟩ : CompProps ℚ)] ≠ []) ∧
    0 < (([(⟨1, 2, ⟨1, 2, 3⟩, ⟨⟨1, 0, 0⟩, ⟨0, 1, 0⟩, ⟨0, 0, 1⟩⟩⟩ : CompProps ℚ)]).map
      fun c => c.vmass).sum ∧
    (assess_inertial_properties
      [(⟨1, 2, ⟨1, 2, 3⟩, ⟨⟨1, 0, 0⟩, ⟨0, 1, 0⟩, ⟨0, 0, 1⟩⟩⟩ : CompProps ℚ)]).total_volume
      = (([(⟨1, 2, ⟨1, 2, 3⟩, ⟨⟨1, 0, 0⟩, ⟨0, 1, 0⟩, ⟨0, 0, 1⟩⟩⟩ : CompProps ℚ)]).map
        fun c => c.volume).sum :=
  ⟨by simp, by norm_num,
    (c7_composite_inertial_properties _ (by simp) (by norm_num)).1⟩

/-! ### C8: zero total mass is not guarded -/

lemma pyadd_finite {a b : PyFloat} (ha : a.isFinite = true) (hb : b.isFinite = true) :
    (a + b).isFinite = true := by
  cases a <;> cases b <;>
    simp_all [PyFloat.add_def, PyFloat.pyadd, PyFloat.isFinite]

lemma pymul_finite {a b : PyFloat} (ha : a.isFinite = true) (hb : b.isFinite = true) :
    (a * b).isFinite = true := by
  cases a <;> cases b <;>
    simp_all [PyFloat.mul_def, PyFloat.pymul, PyFloat.isFinite]

lemma finite_mul_inf {a : PyFloat} (ha : a.isFinite = true) :
    (a * PyFloat.inf).isFinite = false := by
  cases a <;> simp_all [PyFloat.mul_def, PyFloat.pymul, PyFloat.isFinite] <;>
    split_ifs <;> rfl

lemma one_div_fin_zero : (1 : PyFloat) / PyFloat.fin 0 = PyFloat.inf := by
  rw [PyFloat.one_def, PyFloat.div_def]
  simp [PyFloat.pydiv]

lemma foldl_add_finite (comps : List (CompProps PyFloat))
    (g : CompProps PyFloat → PyFloat) (hg : ∀ c ∈ comps, (g c).isFinite = true) :
    ∀ init : PyFloat, init.isFinite = true →
      (comps.foldl (fun acc c => acc + g c) init).isFinite = true := by
  induction comps with
  | nil => intro init h; simpa using h
  | cons c t ih =>
    intro init h
    simp only [List.foldl_cons]
    exact ih (fun x hx => hg x (by simp [hx]))
      _ (pyadd_finite h (hg c (by simp)))

lemma foldl_cog_comp_x (comps : List (CompProps PyFloat)) :
    ∀ init : V3 PyFloat,
      (comps.foldl (fun acc c => vadd acc (smulv c.vmass c.cog)) init).x
        = comps.foldl (fun acc c => acc + c.vmass * c.cog.x) init.x := by
  induction comps with
  | nil => intro init; rfl
  | cons c t ih =>
    intro init
    rw [List.foldl_cons, List.foldl_cons, ih]
    rfl

lemma foldl_cog_comp_y (comps : List (CompProps PyFloat)) :
    ∀ init : V3 PyFloat,
      (comps.foldl (fun acc c => vadd acc (smulv c.vmass c.cog)) init).y
        = comps.foldl (fun acc c => acc + c.vmass * c.cog.y) init.y := by
  induction comps with
  | nil => intro init; rfl
  | cons c t ih =>
    intro init
    rw [List.foldl_cons, List.foldl_cons, ih]
    rfl

lemma foldl_cog_comp_z (comps : List (CompProps PyFloat)) :
    ∀ init : V3 PyFloat,
      (comps.foldl (fun acc c => vadd acc (smulv c.vmass c.cog)) init).z
        = comps.foldl (fun acc c => acc + c.vmass * c.cog.z) init.z := by
  induction comps with
  | nil => intro init; rfl
  | cons c t ih =>
    intro init
    rw [List.foldl_cons, List.foldl_cons, ih]
    rfl

/-- **C8 (amended)**: `assess_inertial_properties` contains no guard on the
total mass. Under numpy float64 semantics, whenever the per-component masses
and centers of gravity are finite but the masses sum to (positive) zero, the
function still returns: `1 / total_mass` evaluates to `inf` and every
component of the composite center of gravity is non-finite (`nan` or `±inf`)
instead of a fatal error being raised. -/
theorem c8_zero_mass_not_guarded (comps : List (CompProps PyFloat))
    (hfin : ∀ c ∈ comps, c.vmass.isFinite = true ∧ c.cog.x.isFinite = true ∧
      c.cog.y.isFinite = true ∧ c.cog.z.isFinite = true)
    (hzero : (assess_inertial_properties comps).total_mass = PyFloat.fin 0) :
    (assess_inertial_properties comps).composite_cog.x.isFinite = false ∧
    (assess_inertial_properties comps).composite_cog.y.isFinite = false ∧
    (assess_inertial_properties comps).composite_cog.z.isFinite = false := by
  simp only [assess_inertial_properties] at hzero ⊢
  rw [hzero]
  simp only [vmuls, one_div_fin_zero]
  refine ⟨?_, ?_, ?_⟩
  · rw [foldl_cog_comp_x]
    exact finite_mul_inf (foldl_add_finite comps _
      (fun c hc => pymul_finite (hfin c hc).1 (hfin c hc).2.1) _ rfl)
  · rw [foldl_cog_comp_y]
    exact finite_mul_inf (foldl_add_finite comps _
      (fun c hc => pymul_finite (hfin c hc).1 (hfin c hc).2.2.1) _ rfl)
  · rw [foldl_cog_comp_z]
    exact finite_mul_inf (foldl_add_finite comps _
      (fun c hc => pymul_finite (hfin c hc).1 (hfin c hc).2.2.2) _ rfl)

/-- **C8 (counterexample)**: for a single component of mass `0.0`, the
aggregator returns normally with composite center of gravity
`(nan, nan, nan)` — it produces NaN instead of guarding the division and
failing with a fatal error. -/
theorem c8_zero_mass_produces_nan :
    (assess_inertial_properties
      [(⟨PyFloat.fin 1, PyFloat.fin 0, ⟨PyFloat.fin 1, PyFloat.fin 2, PyFloat.fin 3⟩,
        ⟨⟨PyFloat.fin 1, PyFloat.fin 0, PyFloat.fin 0⟩,
         ⟨PyFloat.fin 0, PyFloat.fin 1, PyFloat.fin 0⟩,
         ⟨PyFloat.fin 0, PyFloat.fin 0, PyFloat.fin 1⟩⟩⟩ : CompProps PyFloat)]).composite_cog
      = ⟨PyFloat.nan, PyFloat.nan, PyFloat.nan⟩ ∧
    (assess_inertial_properties
      [(⟨PyFloat.fin 1, PyFloat.fin 0, ⟨PyFloat.fin 1, PyFloat.fin 2, PyFloat.fin 3⟩,
        ⟨⟨PyFloat.fin 1, PyFloat.fin 0, PyFloat.fin 0⟩,
         ⟨PyFloat.fin 0, PyFloat.fin 1, PyFloat.fin 0⟩,
         ⟨PyFloat.fin 0, PyFloat.fin 0, PyFloat.fin 1⟩⟩⟩ : CompProps PyFloat)]).total_mass
      = PyFloat.fin 0 ∧
    PyFloat.nan.isFinite = false := by
  refine ⟨?_, ?_, rfl⟩ <;>
    simp [assess_inertial_properties, vadd, vsub, vmul, smulv, vmuls, v3zero, m3zero,
      madd, mbroadcast, PyFloat.add_def, PyFloat.mul_def, PyFloat.div_def,
      PyFloat.sub_def, PyFloat.zero_def, PyFloat.one_def,
      PyFloat.pyadd, PyFloat.pymul, PyFloat.pydiv, PyFloat.pysub]

/-- Witness for the amended C8 at the same concrete zero-mass component. -/
theorem c8_zero_mass_not_guarded_witness :
    ((assess_inertial_properties
      [(⟨PyFloat.fin 1, PyFloat.fin 0, ⟨PyFloat.fin 1, PyFloat.fin 2, PyFloat.fin 3⟩,
        ⟨⟨PyFloat.fin 1, PyFloat.fin 0, PyFloat.fin 0⟩,
         ⟨PyFloat.fin 0, PyFloat.fin 1, PyFloat.fin 0⟩,
         ⟨PyFloat.fin 0, PyFloat.fin 0, PyFloat.fin 1⟩⟩⟩ : CompProps PyFloat)]).total_mass
      = PyFloat.fin 0) ∧
    (assess_inertial_properties
      [(⟨PyFloat.fin 1, PyFloat.fin 0, ⟨PyFloat.fin 1, PyFloat.fin 2, PyFloat.fin 3⟩,
        ⟨⟨PyFloat.fin 1, PyFloat.fin 0, PyFloat.fin 0⟩,
         ⟨PyFloat.fin 0, PyFloat.fin 1, PyFloat.fin 0⟩,
         ⟨PyFloat.fin 0, PyFloat.fin 0, PyFloat.fin 1⟩⟩⟩ : CompProps PyFloat)]).composite_cog.x.isFinite
      = false := by
  have hmass : (assess_inertial_properties
      [(⟨PyFloat.fin 1, PyFloat.fin 0, ⟨PyFloat.fin 1, PyFloat.fin 2, PyFloat.fin 3⟩,
        ⟨⟨PyFloat.fin 1, PyFloat.fin 0, PyFloat.fin 0⟩,
         ⟨PyFloat.fin 0, PyFloat.fin 1, PyFloat.fin 0⟩,
         ⟨PyFloat.fin 0, PyFloat.fin 0, PyFloat.fin 1⟩⟩⟩ : CompProps PyFloat)]).total_mass
      = PyFloat.fin 0 := by
    simp [assess_inertial_properties, PyFloat.add_def, PyFloat.zero_def, PyFloat.pyadd]
  have hfin : ∀ c ∈ [(⟨PyFloat.fin 1, PyFloat.fin 0,
      ⟨PyFloat.fin 1, PyFloat.fin 2, PyFloat.fin 3⟩,
      ⟨⟨PyFloat.fin 1, PyFloat.fin 0, PyFloat.fin 0⟩,
       ⟨PyFloat.fin 0, PyFloat.fin 1, PyFloat.fin 0⟩,
       ⟨PyFloat.fin 0, PyFloat.fin 0, PyFloat.fin 1⟩⟩⟩ : CompProps PyFloat)],
      c.vmass.isFinite = true ∧ c.cog.x.isFinite = true ∧
      c.cog.y.isFinite = true ∧ c.cog.z.isFinite = true := by
    intro c hc
    rcases List.mem_singleton.mp hc with rfl
    exact ⟨rfl, rfl, rfl, rfl⟩
  exact ⟨hmass, (c8_zero_mass_not_guarded _ hfin hmass).1⟩

/-! ### C9: tolerance matching in `append_sensitivities_to_tri` -/

lemma matchRow_iff (p : V3 ℚ) (r : TriRow) :
    matchRow p r = true ↔
      (|p.x - r.x| < 1/100000 ∧ |p.y - r.y| < 1/100000 ∧ |p.z - r.z| < 1/100000) := by
  simp [matchRow, and_assoc]

lemma find?_first {α : Type} (p : α → Bool) :
    ∀ (l : List α) (k : ℕ) (x : α), l.get? k = some x → p x = true →
      (∀ j y, j < k → l.get? j = some y → p y = false) → l.find? p = some x := by
  intro l
  induction l with
  | nil => intro k x hget; simp at hget
  | cons a t ih =>
    intro k x hget hp hearly
    cases k with
    | zero =>
      simp only [List.get?_cons_zero, Option.some.injEq] at hget
      subst hget
      exact List.find?_cons_of_pos _ hp
    | succ k =>
      have hpa : p a = false := hearly 0 a (Nat.succ_pos k) rfl
      rw [List.find?_cons_of_neg _ (by simp [hpa])]
      refine ih k x hget hp ?_
      intro j y hj hgety
      exact hearly (j + 1) y (by omega) hgety

/-- **C9**: point reattachment emits exactly one derivative triplet per
stored point, in the original stored-point order; a point with no sensitivity
row inside the per-axis `1e-5` tolerance gets the zero vector (no error); a
point whose first matching row (in concatenated table order) is row `r` gets
`r`'s derivatives; and derivative entries of absolute value below `1e-8` are
rounded to exactly zero while all others are kept. -/
theorem c9_point_reattachment (points : List (V3 ℚ)) (rows : List TriRow) :
    (append_sensitivities points rows).length = points.length ∧
    (∀ i p, points.get? i = some p →
      ((∀ r ∈ rows, matchRow p r = false) →
        (append_sensitivities points rows).get? i = some ⟨0, 0, 0⟩) ∧
      (∀ k r, rows.get? k = some r → matchRow p r = true →
        (∀ j r', j < k → rows.get? j = some r' → matchRow p r' = false) →
        (append_sensitivities points rows).get? i
          = some ⟨roundSmall r.dxdP, roundSmall r.dydP, roundSmall r.dzdP⟩)) ∧
    (∀ v : ℚ, (|v| < 1/100000000 → roundSmall v = 0) ∧
      (¬ |v| < 1/100000000 → roundSmall v = v)) := by
  refine ⟨List.length_map _ _, ?_, ?_⟩
  · intro i p hp
    constructor
    · intro hnone
      have hfind : rows.find? (matchRow p) = none := by
        rw [List.find?_eq_none]
        intro x hx
        simp [hnone x hx]
      unfold append_sensitivities
      rw [List.get?_map, hp]
      simp [hfind]
    · intro k r hk hmatch hearly
      have hfind : rows.find? (matchRow p) = some r := find?_first _ rows k r hk hmatch hearly
      unfold append_sensitivities
      rw [List.get?_map, hp]
      simp [hfind]
  · intro v
    unfold roundSmall
    constructor
    · intro h; rw [if_pos h]
    · intro h; rw [if_neg h]

/-- Witness for C9: three stored points of which the first two match a row
(the first with a sub-`1e-8` derivative that is rounded to zero) and the
third matches nothing and receives zeros, in original order. -/
theorem c9_point_reattachment_witness :
    (append_sensitivities [⟨0, 0, 0⟩, ⟨1, 1, 1⟩, ⟨5, 5, 5⟩]
      [⟨0, 0, 0, 1/1000000000, 2, 3⟩, ⟨1, 1, 1, 4, 5, 6⟩]).length = 3 ∧
    (append_sensitivities [⟨0, 0, 0⟩, ⟨1, 1, 1⟩, ⟨5, 5, 5⟩]
      [⟨0, 0, 0, 1/1000000000, 2, 3⟩, ⟨1, 1, 1, 4, 5, 6⟩]).get? 2 = some ⟨0, 0, 0⟩ ∧
    (append_sensitivities [⟨0, 0, 0⟩, ⟨1, 1, 1⟩, ⟨5, 5, 5⟩]
      [⟨0, 0, 0, 1/1000000000, 2, 3⟩, ⟨1, 1, 1, 4, 5, 6⟩]).get? 0
      = some ⟨roundSmall (1/1000000000), roundSmall 2, roundSmall 3⟩ ∧
    roundSmall (1/1000000000 : ℚ) = 0 ∧ roundSmall (2 : ℚ) = 2 := by
  have hc := c9_point_reattachment [⟨0, 0, 0⟩, ⟨1, 1, 1⟩, ⟨5, 5, 5⟩]
    [⟨0, 0, 0, 1/1000000000, 2, 3⟩, ⟨1, 1, 1, 4, 5, 6⟩]
  refine ⟨hc.1.trans rfl, ?_, ?_, ?_, ?_⟩
  · refine (hc.2.1 2 ⟨5, 5, 5⟩ rfl).1 ?_
    intro r hr
    rcases List.mem_cons.mp hr with rfl | hr
    · rw [Bool.eq_false_iff]
      rw [Ne, matchRow_iff]
      simp only [abs_sub_lt_iff]
      norm_num
    · rcases List.mem_cons.mp hr with rfl | hr
      · rw [Bool.eq_false_iff]
        rw [Ne, matchRow_iff]
        simp only [abs_sub_lt_iff]
        norm_num
      · simp at hr
  · refine (hc.2.1 0 ⟨0, 0, 0⟩ rfl).2 0 ⟨0, 0, 0, 1/1000000000, 2, 3⟩ rfl ?_ ?_
    · rw [matchRow_iff]
      simp only [abs_sub_lt_iff]
      norm_num
    · intro j r' hj
      omega
  · refine (hc.2.2 (1/1000000000)).1 ?_
    rw [abs_of_pos (by norm_num : (0:ℚ) < 1/1000000000)]
    norm_num
  · refine (hc.2.2 2).2 ?_
    rw [abs_of_pos (by norm_num : (0:ℚ) < 2)]
    norm_num

/-! ### C10: zero nominal parameter gives `dP = 0` and unguarded division -/

lemma pydiv_fin_zero_not_finite (d : PyFloat) :
    (d / PyFloat.fin 0).isFinite = false := by
  cases d <;> simp [PyFloat.div_def, PyFloat.pydiv, PyFloat.isFinite] <;>
    split_ifs <;> rfl

/-- **C10**: for a design parameter with nominal value exactly `0`, the
perturbation step computed by `dGdP` is `dP = 0·(1 + p/100) − 0 = 0`, and
`compare_meshes` divides the delta columns by that `dP` with no guard: under
numpy float64 semantics every sensitivity entry of every returned row is
non-finite (`±inf` or `nan`) — a value is produced, no error is raised. -/
theorem c10_zero_parameter_division (perturbation : ℚ)
    (m1 m2 : List (Face PyFloat)) (r : SensRow PyFloat) :
    perturbed_dP 0 perturbation = 0 ∧
    (r ∈ compare_meshes m1 m2 (PyFloat.fin 0) →
      r.dxdP.isFinite = false ∧ r.dydP.isFinite = false ∧ r.dzdP.isFinite = false) := by
  constructor
  · unfold perturbed_dP
    ring
  · intro hr
    have hmem := mem_dedupGo _ _ _ hr
    obtain ⟨k, h1, h2, hk⟩ := mem_zipWith_get _ _ _ _ hmem
    subst hk
    exact ⟨pydiv_fin_zero_not_finite _, pydiv_fin_zero_not_finite _,
      pydiv_fin_zero_not_finite _⟩

/-- Witness for C10: a one-face all-zero mesh compared with itself at
`dP = 0` yields a row whose sensitivity columns are all `nan`. -/
theorem c10_zero_parameter_division_witness :
    perturbed_dP 0 20 = 0 ∧
    ((⟨PyFloat.fin 0, PyFloat.fin 0, PyFloat.fin 0, PyFloat.fin 0, PyFloat.fin 0,
       PyFloat.fin 0, PyFloat.fin 0, PyFloat.nan, PyFloat.nan, PyFloat.nan⟩ :
       SensRow PyFloat).dxdP.isFinite = false ∧
     (⟨PyFloat.fin 0, PyFloat.fin 0, PyFloat.fin 0, PyFloat.fin 0, PyFloat.fin 0,
       PyFloat.fin 0, PyFloat.fin 0, PyFloat.nan, PyFloat.nan, PyFloat.nan⟩ :
       SensRow PyFloat).dydP.isFinite = false ∧
     (⟨PyFloat.fin 0, PyFloat.fin 0, PyFloat.fin 0, PyFloat.fin 0, PyFloat.fin 0,
       PyFloat.fin 0, PyFloat.fin 0, PyFloat.nan, PyFloat.nan, PyFloat.nan⟩ :
       SensRow PyFloat).dzdP.isFinite = false) := by
  have hc : compare_meshes
      [((⟨PyFloat.fin 0, PyFloat.fin 0, PyFloat.fin 0⟩, ⟨PyFloat.fin 0, PyFloat.fin 0,
         PyFloat.fin 0⟩, ⟨PyFloat.fin 0, PyFloat.fin 0, PyFloat.fin 0⟩) : Face PyFloat)]
      [((⟨PyFloat.fin 0, PyFloat.fin 0, PyFloat.fin 0⟩, ⟨PyFloat.fin 0, PyFloat.fin 0,
         PyFloat.fin 0⟩, ⟨PyFloat.fin 0, PyFloat.fin 0, PyFloat.fin 0⟩) : Face PyFloat)]
      (PyFloat.fin 0)
      = [⟨PyFloat.fin 0, PyFloat.fin 0, PyFloat.fin 0, PyFloat.fin 0, PyFloat.fin 0,
          PyFloat.fin 0, PyFloat.fin 0, PyFloat.nan, PyFloat.nan, PyFloat.nan⟩] := by
    simp [compare_meshes, flatten_vectors, mkSensRow, vsub, dedupKeepFirst, dedupGo,
      PyFloat.add_def, PyFloat.mul_def, PyFloat.div_def, PyFloat.sub_def,
      PyFloat.pyadd, PyFloat.pymul, PyFloat.pydiv, PyFloat.pysub]
  have hthm := c10_zero_parameter_division 20
    [((⟨PyFloat.fin 0, PyFloat.fin 0, PyFloat.fin 0⟩, ⟨PyFloat.fin 0, PyFloat.fin 0,
       PyFloat.fin 0⟩, ⟨PyFloat.fin 0, PyFloat.fin 0, PyFloat.fin 0⟩) : Face PyFloat)]
    [((⟨PyFloat.fin 0, PyFloat.fin 0, PyFloat.fin 0⟩, ⟨PyFloat.fin 0, PyFloat.fin 0,
       PyFloat.fin 0⟩, ⟨PyFloat.fin 0, PyFloat.fin 0, PyFloat.fin 0⟩) : Face PyFloat)]
    ⟨PyFloat.fin 0, PyFloat.fin 0, PyFloat.fin 0, PyFloat.fin 0, PyFloat.fin 0,
     PyFloat.fin 0, PyFloat.fin 0, PyFloat.nan, PyFloat.nan, PyFloat.nan⟩
  refine ⟨hthm.1, hthm.2 ?_⟩
  rw [hc]
  exact List.mem_singleton.mpr rfl
